import Mathlib

/-!
Verification of the AReaL control-plane coordination layer
(`realhf/system/request_reply_stream.py` and
`realhf/system/function_executor.py`) against its natural-language
specification.

The Python code is shallowly embedded: request ids (128-bit random UUIDs
in the source) are modelled as natural numbers together with an injective,
newline-free decimal string rendering; the compiled regular expression
produced by `create_exact_match_pattern` is modelled by its semantics on
the class of patterns that function actually produces (an alternation of
escaped literals anchored at the start by `re.match` and at the end by
the dollar metacharacter, which in Python also matches just before one
trailing newline); the response buffer (a Python dict iterated in
insertion order) is modelled as an association list keyed by request id;
the inbound ZMQ channel is the list of payloads still to be received;
blocking loops are modelled with explicit fuel, where fuel exhaustion
represents an execution that blocks forever because no further message
arrives.
-/

namespace AReaL

/-! ### Request-id rendering (models `str(uuid)`)

A request id is a natural number.  Its string form is rendered as a list
of characters: an injective encoding that contains no newline, the two
facts about `str(uuid4())` that the matching code depends on. -/

/-- Decimal digit characters of `n`, little-endian, with explicit fuel. -/
def decChars : Nat → Nat → List Char
  | 0, _ => []
  | fuel + 1, n =>
    if n = 0 then [] else Nat.digitChar (n % 10) :: decChars fuel (n / 10)

/-- String form of a request id (models `str(uuid)`): injective and
newline-free rendering of the id. -/
def uuidChars (n : Nat) : List Char :=
  if n = 0 then ['0'] else decChars (n + 1) n

/-- Numeric value of a digit character, the inverse of `Nat.digitChar`
below 10. -/
def charVal (c : Char) : Nat := c.toNat - 48

/-- Value of a little-endian digit-character list. -/
def charsVal : List Char → Nat
  | [] => 0
  | c :: r => charVal c + 10 * charsVal r

/-! ### The exact-match pattern (models `create_exact_match_pattern`)

The source builds `re.compile("(" + "|".join(map(re.escape, ids)) + ")$")`
and applies it with `pattern.match(str(req_id))`.  We keep the escaped
literals, exactly as the compiled pattern does, and give the matching
semantics of that pattern class: `match` anchors at the start, consumes
one alternative literally (a backslash escapes the following character),
and the final dollar accepts either the end of the string or a position
just before one trailing newline. -/

/-- Characters escaped by the CPython `re.escape` special-character map. -/
def reSpecialChars : List Char :=
  ['(', ')', '[', ']', '\x7b', '\x7d', '?', '*', '+', '-', '|', '^', '$',
   '\\', '.', '&', '~', '#', ' ', '\t', '\n', '\r', '\x0b', '\x0c']

/-- Escape of one character, following `re.escape`. -/
def reEscapeChar (c : Char) : List Char :=
  if c ∈ reSpecialChars then ['\\', c] else [c]

/-- Escape of a string, following `re.escape`. -/
def reEscape (s : List Char) : List Char :=
  (s.map reEscapeChar).flatten

/-- Literal denoted by an escaped string: a backslash makes the next
character literal.  Returns `none` on a dangling backslash. -/
def unescape : List Char → Option (List Char)
  | [] => some []
  | [c] => if c = '\\' then none else some [c]
  | c :: d :: rest =>
    if c = '\\' then (unescape rest).map (fun l => d :: l)
    else (unescape (d :: rest)).map (fun l => c :: l)

/-- Compiled exact-match pattern: the list of escaped alternatives of the
regex produced by `create_exact_match_pattern`. -/
structure ExactPattern where
  alternatives : List (List Char)
deriving DecidableEq, Repr

/-- Model of `create_exact_match_pattern`: escapes every id and forms the
anchored alternation. -/
def create_exact_match_pattern (ids : List (List Char)) : ExactPattern :=
  ⟨ids.map reEscape⟩

/-- Matching one escaped alternative followed by the dollar anchor against
`s`, under `re.match` semantics: the alternative must consume a prefix of
`s` and the dollar then requires the end of the string or a sole trailing
newline. -/
def litDollarMatch (lit : List Char) (s : List Char) : Bool :=
  match unescape lit with
  | none => false
  | some l => s == l || s == l ++ ['\n']

/-- Model of `pattern.match(s)` for a pattern built by
`create_exact_match_pattern`: true iff some alternative matches. -/
def reMatchPattern (p : ExactPattern) (s : List Char) : Bool :=
  p.alternatives.any (fun lit => litDollarMatch lit s)

/-- Model of the pattern argument of `poll`: `none` models Python `None`,
which `_poll_batch_nonblock` replaces by the compiled pattern matching
everything. -/
def pollMatch : Option ExactPattern → List Char → Bool
  | none, _ => true
  | some p, s => reMatchPattern p s

/-! ### Payloads and the request client
(models `Payload` and `NameResolvingRequestClient`)

A handler is either an integer model-worker index or one of the special
data-source handler names of the form double-underscore data i. -/

/-- Target handler of a payload (`Union[ModelShardID, str]` in source,
with integer worker indices and special data-source names used by the
executor). -/
inductive Handler
  | widx (i : Nat)
  | dsrc (i : Nat)
deriving DecidableEq, Repr

/-- Model of `Payload`.  The timing field `send_time` is metadata with no
control-flow role and is not modelled; hook fields are likewise unused by
the verified operations. -/
structure Payload where
  handler : Handler
  handle_name : List Char
  request_id : Nat
  syn_reply_id : Nat
  ack_reply_id : Nat
  no_syn : Bool
  data : Option Nat
deriving DecidableEq, Repr

/-- Default payload used only as a `getD` fallback in statements. -/
def payload0 : Payload :=
  ⟨Handler.widx 0, [], 0, 0, 0, true, none⟩

/-- State of the request client visible to `poll`: the correlation buffer
`_response_buffer` (a Python dict keyed by `request_id`, iterated in
insertion order, modelled as an association list) and the inbound channel
(the payloads that `recv_socket` will deliver, in order). -/
structure ClientState where
  response_buffer : List Payload
  recvQueue : List Payload
deriving DecidableEq, Repr

/-- Model of the dict update `buffer[p.request_id] = p`: replaces in place
when the key exists, appends otherwise. -/
def bufInsert (buf : List Payload) (p : Payload) : List Payload :=
  if buf.any (fun q => q.request_id == p.request_id) then
    buf.map (fun q => if q.request_id == p.request_id then p else q)
  else buf ++ [p]

/-- Payloads of the buffer whose request-id string form matches the
pattern, in buffer order (the scan loop of `_poll_batch_nonblock`). -/
def bufferHits (pattern : Option ExactPattern) (buf : List Payload) : List Payload :=
  buf.filter (fun p => pollMatch pattern (uuidChars p.request_id))

/-- Payloads left in the buffer after popping every match. -/
def bufferMisses (pattern : Option ExactPattern) (buf : List Payload) : List Payload :=
  buf.filter (fun p => !pollMatch pattern (uuidChars p.request_id))

/-- Model of `_poll_batch_nonblock`: scan the buffer and return all
matches; otherwise pull at most one message from the inbound channel,
store it in the buffer, rescan, and raise `NoMessage` (here: `none`) when
still nothing matches.  The state is returned also on failure because the
pull mutates the buffer before the exception is raised. -/
def poll_batch_nonblock (pattern : Option ExactPattern) (st : ClientState) :
    Option (List Payload) × ClientState :=
  if (bufferHits pattern st.response_buffer).isEmpty then
    match st.recvQueue with
    | [] => (none, st)
    | p :: q =>
      if (bufferHits pattern (bufInsert st.response_buffer p)).isEmpty then
        (none, ⟨bufInsert st.response_buffer p, q⟩)
      else
        (some (bufferHits pattern (bufInsert st.response_buffer p)),
         ⟨bufferMisses pattern (bufInsert st.response_buffer p), q⟩)
  else
    (some (bufferHits pattern st.response_buffer),
     ⟨bufferMisses pattern st.response_buffer, st.recvQueue⟩)

/-- Fuelled model of `poll_batch` with `block=True`: retry
`_poll_batch_nonblock` (the source sleeps 0.05s between retries) until it
succeeds.  Fuel exhaustion models an execution that blocks forever
because no further message arrives on the channel. -/
def poll_batch_blockFuel :
    Nat → Option ExactPattern → ClientState → Option (List Payload × ClientState)
  | 0, _, _ => none
  | fuel + 1, pattern, st =>
    match poll_batch_nonblock pattern st with
    | (some ps, st2) => some (ps, st2)
    | (none, st2) => poll_batch_blockFuel fuel pattern st2

/-- Model of `poll_batch` with `block=True`.  The fuel `queue length + 1`
is exactly enough to drain the closed-world channel. -/
def poll_batch_block (pattern : Option ExactPattern) (st : ClientState) :
    Option (List Payload × ClientState) :=
  poll_batch_blockFuel (st.recvQueue.length + 1) pattern st

/-- Re-insertion of the unreturned matches performed by `poll`: all
payloads after the first go back into the correlation buffer. -/
def rebufferTail (st : ClientState) (tail : List Payload) : ClientState :=
  ⟨tail.foldl bufInsert st.response_buffer, st.recvQueue⟩

/-- Model of `poll` with `block=True`: take the batch, return its first
payload, re-buffer the rest. -/
def poll_block (pattern : Option ExactPattern) (st : ClientState) :
    Option (Payload × ClientState) :=
  match poll_batch_block pattern st with
  | none => none
  | some ([], _) => none
  | some (p :: rest, st2) => some (p, rebufferTail st2 rest)

/-- Model of `poll` with `block=False`: as `poll_block` but a single
non-blocking batch attempt; `none` in the first component models the
`NoMessage` exception. -/
def poll_nonblock (pattern : Option ExactPattern) (st : ClientState) :
    Option Payload × ClientState :=
  match poll_batch_nonblock pattern st with
  | (none, st2) => (none, st2)
  | (some [], st2) => (none, st2)
  | (some (p :: rest), st2) => (some p, rebufferTail st2 rest)

/-- Client with its outbound log: `sent` records every payload pushed on a
send socket by `post`, in order. -/
structure ClientIO where
  st : ClientState
  sent : List Payload
deriving DecidableEq, Repr

/-- Model of `post`: send the payload and return its `request_id`. -/
def post (p : Payload) (io : ClientIO) : Nat × ClientIO :=
  (p.request_id, ⟨io.st, io.sent ++ [p]⟩)

/-- Posting a list of payloads in order (the list comprehension in
`request`). -/
def postAll (ps : List Payload) (io : ClientIO) : ClientIO :=
  ps.foldl (fun acc p => (post p acc).2) io

/-- String form of the `ack` opcode. -/
def ackName : List Char := ['a', 'c', 'k']

/-- Model of the `Payload(...)` construction in `request` for the
handlers-and-datas calling convention: one payload per `(handler, data)`
pair produced by `zip`, with the three correlation ids drawn from the
fresh-id supply (`uuid.uuid4()` in `__post_init__`). -/
def mkRequestPayloadsAux (htype : List Char) (no_syn : Bool) (fresh : Nat → Nat) :
    List (Handler × Option Nat) → Nat → List Payload
  | [], _ => []
  | (h, d) :: rest, i =>
    ⟨h, htype, fresh (3 * i), fresh (3 * i + 1), fresh (3 * i + 2), no_syn, d⟩ ::
      mkRequestPayloadsAux htype no_syn fresh rest (i + 1)

/-- Request payloads built by `request(handlers, handle_type, datas)`. -/
def mkRequestPayloads (handlers : List Handler) (htype : List Char)
    (datas : List (Option Nat)) (no_syn : Bool) (fresh : Nat → Nat) : List Payload :=
  mkRequestPayloadsAux htype no_syn fresh (List.zip handlers datas) 0

/-- Model of the ack payload
`Payload(handler=r.handler, handle_name="ack", request_id=r.ack_reply_id)`:
its own syn and ack reply ids are fresh and unused. -/
def mkAckPayload (r : Payload) (s a : Nat) : Payload :=
  ⟨r.handler, ackName, r.ack_reply_id, s, a, true, none⟩

/-- Ack payloads of a request batch, one per request, in request order,
with fresh ids drawn after the request ids. -/
def acksOfAux (fresh : Nat → Nat) (base : Nat) : List Payload → Nat → List Payload
  | [], _ => []
  | r :: rest, i =>
    mkAckPayload r (fresh (base + 2 * i)) (fresh (base + 2 * i + 1)) ::
      acksOfAux fresh base rest (i + 1)

/-- Ack payloads for the whole request batch. -/
def acksOf (requests : List Payload) (fresh : Nat → Nat) : List Payload :=
  acksOfAux fresh (3 * requests.length) requests 0

/-- Sequential blocking polls for the SYN replies, one exact-match poll
per request on that request syn reply id (the first list comprehension in
the handshake branch of `request`). -/
def pollSyns : List Payload → ClientState → Option (List Payload × ClientState)
  | [], st => some ([], st)
  | r :: rs, st =>
    match poll_block (some (create_exact_match_pattern [uuidChars r.syn_reply_id])) st with
    | none => none
    | some (p, st2) =>
      match pollSyns rs st2 with
      | none => none
      | some (ps, st3) => some (p :: ps, st3)

/-- Model of `request(handlers, handle_type, datas, no_syn)`: build one
payload per `(handler, data)` pair, post them all; when `no_syn` is false
additionally poll one SYN per request (blocking) and then post one ack
per request; finally return the request ids in handler order.  The result
is `none` when a blocking SYN poll blocks forever. -/
def request (handlers : List Handler) (htype : List Char)
    (datas : List (Option Nat)) (no_syn : Bool) (fresh : Nat → Nat)
    (io : ClientIO) : Option (List Nat × ClientIO) :=
  let requests := mkRequestPayloads handlers htype datas no_syn fresh
  let io1 := postAll requests io
  if no_syn then some (requests.map (fun r => r.request_id), io1)
  else
    match pollSyns requests io1.st with
    | none => none
    | some (_, st2) =>
      let io2 := postAll (acksOf requests fresh) ⟨st2, io1.sent⟩
      some (requests.map (fun r => r.request_id), io2)

/-- Conclusion of the C1 handshake claim for `request` with
`no_syn=false`: the call posts one request payload per `(handler, data)`
pair, then blocks polling until one SYN reply per request has been
observed (each observed reply carrying exactly that request syn reply
id), and only then posts one ack payload per handler (opcode `ack`,
request id equal to the corresponding request ack reply id), finally
returning the request ids in handler order. -/
def RequestHandshakeConcl (handlers : List Handler) (htype : List Char)
    (datas : List (Option Nat)) (fresh : Nat → Nat) (io : ClientIO) : Prop :=
  ∃ ids io2 syns st2,
    request handlers htype datas false fresh io = some (ids, io2) ∧
    pollSyns (mkRequestPayloads handlers htype datas false fresh)
        (postAll (mkRequestPayloads handlers htype datas false fresh) io).st
      = some (syns, st2) ∧
    ids = (mkRequestPayloads handlers htype datas false fresh).map
        (fun r => r.request_id) ∧
    (mkRequestPayloads handlers htype datas false fresh).length
      = (List.zip handlers datas).length ∧
    io2.sent = io.sent ++ mkRequestPayloads handlers htype datas false fresh ++
      acksOf (mkRequestPayloads handlers htype datas false fresh) fresh ∧
    io2.st = st2 ∧
    syns.length = (mkRequestPayloads handlers htype datas false fresh).length ∧
    (∀ i, i < (mkRequestPayloads handlers htype datas false fresh).length →
      (syns.getD i payload0).request_id =
        ((mkRequestPayloads handlers htype datas false fresh).getD i
          payload0).syn_reply_id) ∧
    (acksOf (mkRequestPayloads handlers htype datas false fresh) fresh).length
      = (mkRequestPayloads handlers htype datas false fresh).length ∧
    (∀ i, i < (mkRequestPayloads handlers htype datas false fresh).length →
      ((acksOf (mkRequestPayloads handlers htype datas false fresh) fresh).getD i
          payload0).handle_name = ackName ∧
      ((acksOf (mkRequestPayloads handlers htype datas false fresh) fresh).getD i
          payload0).request_id =
        ((mkRequestPayloads handlers htype datas false fresh).getD i
          payload0).ack_reply_id ∧
      ((acksOf (mkRequestPayloads handlers htype datas false fresh) fresh).getD i
          payload0).handler =
        ((mkRequestPayloads handlers htype datas false fresh).getD i
          payload0).handler)

/-! ### Endpoint construction (models `NameResolvingReplyServer.__init__`
and the barrier loop of `NameResolvingRequestClient.__init__`) -/

/-- Model of `name_resolve.wait(name, timeout)`: the environment fixes the
time at which the name is published (`none` = never); the wait returns
that time when it is within the timeout and raises `TimeoutError`
(modelled as `Except.error`) otherwise. -/
def name_resolve_wait (appearTime : Option Nat) (timeout : Nat) : Except Unit Nat :=
  match appearTime with
  | some t => if t ≤ timeout then .ok t else .error ()
  | none => .error ()

/-- Timeout (300 time units) passed by the reply server to both
`name_resolve.wait` calls. -/
def workerWaitTimeout : Nat := 300

/-- Model of `NameResolvingReplyServer.__init__`: wait for the master
receive address, then for this worker master send address, each with the
fixed timeout 300; a timeout on either wait aborts construction. -/
def reply_server_init (recvAppear sendAppear : Option Nat) :
    Except Unit (Nat × Nat) :=
  match name_resolve_wait recvAppear workerWaitTimeout with
  | .error e => .error e
  | .ok a =>
    match name_resolve_wait sendAppear workerWaitTimeout with
    | .error e => .error e
    | .ok b => .ok (a, b)

/-- Sleep interval in milliseconds of the master barrier polling loop
(`time.sleep(0.1)`). -/
def masterPollInterval : Nat := 100

/-- Model of the master barrier loop of the request client constructor:
`counts` lists the number of barrier subentries observed at successive
polls; the loop exits at the first poll whose count is at least
`n_subscribers` (the loop condition is `len(...) < n_subscribers`),
sleeping `masterPollInterval` between polls.  `none` models an execution
still blocked at the end of the observed trace: the loop has no
timeout. -/
def master_barrier_wait : List Nat → Nat → Option Nat
  | [], _ => none
  | c :: cs, n =>
    if c < n then (master_barrier_wait cs n).map (fun k => k + 1) else some 0

/-! ### The flush task (models `FunctionExecutor.flush_calls`) -/

/-- Event of the flush task: consuming one level-completion signal from
the `topo_level_count` queue, or issuing one broadcast flush request to
the given handlers. -/
inductive FlushEvent
  | take
  | flush (handlers : List Nat)
deriving DecidableEq, Repr

/-- Whether node `v` has no incoming edge from the remaining nodes (the
generation criterion of `networkx.topological_generations`, the external
library call used to build `topo_widths`). -/
def noIncoming (edges : List (Nat × Nat)) (nodes : List Nat) (v : Nat) : Bool :=
  !(edges.any (fun e => e.2 == v && nodes.contains e.1))

/-- Fuelled generation peeling of `networkx.topological_generations`. -/
def topoGensAux (edges : List (Nat × Nat)) : Nat → List Nat → List (List Nat)
  | 0, _ => []
  | fuel + 1, nodes =>
    if (nodes.filter (noIncoming edges nodes)).isEmpty then []
    else nodes.filter (noIncoming edges nodes) ::
      topoGensAux edges fuel
        (nodes.filter (fun v => !(nodes.filter (noIncoming edges nodes)).contains v))

/-- Topological generations of the graph with the given nodes and
edges. -/
def topoGens (nodes : List Nat) (edges : List (Nat × Nat)) : List (List Nat) :=
  topoGensAux edges nodes.length nodes

/-- The `topo_widths` computed in `FunctionExecutor.__init__`: the length
of each topological generation. -/
def topo_widths (nodes : List Nat) (edges : List (Nat × Nat)) : List Nat :=
  (topoGens nodes edges).map List.length

/-- Trace of `flush_calls`: for each level of width `w`, await `w`
signals from `topo_level_count`, then issue one broadcast flush request
with `handlers=list(range(n_model_workers))`. -/
def flush_calls_trace : List Nat → Nat → List FlushEvent
  | [], _ => []
  | w :: rest, n =>
    List.replicate w FlushEvent.take ++
      (FlushEvent.flush (List.range n) :: flush_calls_trace rest n)

/-- Number of signals consumed after the previous flush and before the
i-th broadcast flush of a trace (`none` when the trace holds fewer than
`i + 1` flushes); `acc` accumulates signals seen since the last flush. -/
def takesBeforeFlush : List FlushEvent → Nat → Nat → Option Nat
  | [], _, _ => none
  | FlushEvent.take :: tr, i, acc => takesBeforeFlush tr i (acc + 1)
  | FlushEvent.flush _ :: _, 0, acc => some acc
  | FlushEvent.flush _ :: tr, i + 1, _ => takesBeforeFlush tr i 0

/-! ### Graph nodes and executor construction (C9) -/

/-- Modelled from the spec: the static configuration of one graph node.
`MFCDef` (realhf/api/core/dfg.py) is not under the packaged sources; the
spec describes a graph node as name, flags, required sequence count
`nSeqs`, and the worker shards it is bound to. -/
structure MFCDef where
  name : Nat
  n_seqs : Nat
  is_src : Bool
  is_dst : Bool
  workers : List Nat
deriving DecidableEq, Repr

/-- Construction errors of the executor. -/
inductive ExecInitError
  | noSourceNode
  | zeroWorkerNode
deriving DecidableEq, Repr

/-- Modelled from the spec: constructing the per-node coordinator
(`ModelFunctionCall`, realhf/system/model_function_call.py, not under the
packaged sources) rejects a graph node with zero assigned workers - the
spec requires such a misconfiguration to be rejected before entering
EXECUTING. -/
def mkModelFunctionCall (rpc : MFCDef) : Except ExecInitError MFCDef :=
  if rpc.workers.isEmpty then .error .zeroWorkerNode else .ok rpc

/-- The construction loop of `FunctionExecutor.__init__` over all graph
nodes. -/
def mkFunctionCalls : List MFCDef → Except ExecInitError (List MFCDef)
  | [] => .ok []
  | r :: rest =>
    match mkModelFunctionCall r with
    | .error e => .error e
    | .ok fc =>
      match mkFunctionCalls rest with
      | .error e => .error e
      | .ok fcs => .ok (fc :: fcs)

/-- Model of `FunctionExecutor` construction: select the source node
(`list(filter(lambda rpc: rpc.is_src, rpcs))[0]`, an index error when no
source exists) and build one coordinator per node.  Only a successfully
constructed executor can reach `execute_step`, so any rejection here
happens before the EXECUTING state starts any coordinator task. -/
def mkFunctionExecutor (rpcs : List MFCDef) : Except ExecInitError (List MFCDef) :=
  match rpcs.find? (fun r => r.is_src) with
  | none => .error .noSourceNode
  | some _ => mkFunctionCalls rpcs

/-! ### The data-loading loop (models `FunctionExecutor.load_data`)

`AsyncIOSequenceBuffer`, `GlobalStorageTracker` and the
`DataBatchMeta`/`SequenceSample` payloads live outside the packaged
sources; the buffer and tracker are modelled from the spec (sections 4.2
and 4.3), a fetched batch is modelled as the list of its unpacked
samples. -/

/-- A data sample as seen by `load_data`: its id (`xx.ids[0]`) and its
data keys. -/
structure Sample where
  sid : Nat
  keys : List Nat
deriving DecidableEq, Repr

/-- Modelled from the spec: the sequence buffer.  `putBatch` appends
samples, blocking the caller while `size + len(samples) > maxSize`, and
returns the monotonically assigned indices. -/
structure SeqBuffer where
  size : Nat
  max_size : Nat
  next_index : Nat
deriving DecidableEq, Repr

/-- Modelled from the spec: `putBatch` for a batch of `n` samples;
`none` models the producer blocking forever on overflow (no consumer
exists during the loading loop). -/
def put_batch (buf : SeqBuffer) (n : Nat) : Option (List Nat × SeqBuffer) :=
  if buf.size + n > buf.max_size then none
  else some (List.range' buf.next_index n,
    ⟨buf.size + n, buf.max_size, buf.next_index + n⟩)

/-- State of the data-loading loop: the `received_ids` set, the sequence
buffer, and the storage-tracker ownership log (`add_data` calls as
`(workerId, sampleIds, key)` records, modelled from the spec). -/
structure LoadState where
  received : List Nat
  buffer : SeqBuffer
  tracker : List (Nat × List Nat × Nat)
deriving DecidableEq, Repr

/-- Samples of one polling round in iteration order: responses walked in
data-parallel rank order, each unpacked batch in sample order (`None`
responses and `None` meta samples contribute nothing). -/
def roundSamples : List (Option (List Sample)) → List Sample
  | [] => []
  | none :: rest => roundSamples rest
  | some xs :: rest => xs ++ roundSamples rest

/-- The per-sample dedup scan of one round: the first component is the
first duplicate id encountered (`none` when there is none), the second
the `received_ids` set after the scan stops. -/
def dedupScan : List Sample → List Nat → Option Nat × List Nat
  | [], received => (none, received)
  | x :: rest, received =>
    if x.sid ∈ received then (some x.sid, received)
    else dedupScan rest (x.sid :: received)

/-- The `add_data` records of one round: for each responding rank, one
record per key of its first sample, owning all sample ids of that batch
(an empty unpacked batch is excluded by the data api and contributes
nothing). -/
def trackerAdds (routeData : Nat → Nat) :
    List (Option (List Sample)) → Nat → List (Nat × List Nat × Nat)
  | [], _ => []
  | none :: rest, dp => trackerAdds routeData rest (dp + 1)
  | some [] :: rest, dp => trackerAdds routeData rest (dp + 1)
  | some (x :: xs) :: rest, dp =>
    x.keys.map (fun k => (routeData dp, (x :: xs).map (fun s => s.sid), k)) ++
      trackerAdds routeData rest (dp + 1)

/-- Outcome of one polling round. -/
inductive RoundOutcome
  | ok (st : LoadState)
  | dup (i : Nat) (st : LoadState)
  | blocked
deriving DecidableEq, Repr

/-- One polling round of `load_data`: dedup-check every fetched sample
(raising `DuplicateSampleId` before anything reaches the tracker or the
buffer), optionally shuffle, record ownership, then `put_batch`; a round
with no data only sleeps. -/
def processRound (routeData : Nat → Nat) (shuffle : List Sample → List Sample)
    (resps : List (Option (List Sample))) (st : LoadState) : RoundOutcome :=
  match dedupScan (roundSamples resps) st.received with
  | (some i, rec2) => .dup i ⟨rec2, st.buffer, st.tracker⟩
  | (none, rec2) =>
    if (shuffle (roundSamples resps)).length = 0 then
      .ok ⟨rec2, st.buffer, st.tracker⟩
    else
      match put_batch st.buffer (shuffle (roundSamples resps)).length with
      | none => .blocked
      | some (_, buf2) =>
        .ok ⟨rec2, buf2, st.tracker ++ trackerAdds routeData resps 0⟩

/-- Result of the data-loading loop with the number of polling rounds
performed and fetch requests issued. -/
inductive LoadResult
  | done (st : LoadState) (rounds : Nat) (fetches : Nat)
  | dupId (i : Nat) (st : LoadState) (rounds : Nat) (fetches : Nat)
  | blocked
  | outOfRounds
deriving DecidableEq, Repr

/-- Adds one completed round (with its fetch-request count) to a loop
result. -/
def bumpRound (fetchCount : Nat) : LoadResult → LoadResult
  | .done st r f => .done st (r + 1) (f + fetchCount)
  | .dupId i st r f => .dupId i st (r + 1) (f + fetchCount)
  | .blocked => .blocked
  | .outOfRounds => .outOfRounds

/-- Model of the `load_data` loop: while the buffer size is below the
maximum `n_seqs` over all graph nodes, fetch one batch from every source
worker (one fetch request per data-parallel rank) and process the round;
the supply lists the responses of successive rounds, its exhaustion
(`outOfRounds`) modelling an execution still inside the loop. -/
def load_data_loop (routeData : Nat → Nat) (shuffle : List Sample → List Sample)
    (maxSeqs : Nat) : List (List (Option (List Sample))) → LoadState → LoadResult
  | supply, st =>
    if st.buffer.size ≥ maxSeqs then .done st 0 0
    else
      match supply with
      | [] => .outOfRounds
      | resps :: rest =>
        match processRound routeData shuffle resps st with
        | .dup i st2 => .dupId i st2 1 resps.length
        | .blocked => .blocked
        | .ok st2 =>
          bumpRound resps.length (load_data_loop routeData shuffle maxSeqs rest st2)

/-- The `max(rpc.n_seqs for rpc in self.rpcs)` requirement. -/
def maxNSeqs : List MFCDef → Nat
  | [] => 0
  | r :: rest => max r.n_seqs (maxNSeqs rest)

/-- Rounds performed by a finished load loop. -/
def loadRounds : LoadResult → Option Nat
  | .done _ r _ => some r
  | _ => none

/-- Fetch requests issued by a finished load loop. -/
def loadFetches : LoadResult → Option Nat
  | .done _ _ f => some f
  | _ => none

/-- Final buffer size of a finished load loop. -/
def loadFinalSize : LoadResult → Option Nat
  | .done st _ _ => some st.buffer.size
  | _ => none

/-- Whether the load loop aborted with a duplicate-sample-id error. -/
def isDupError : LoadResult → Bool
  | .dupId _ _ _ _ => true
  | _ => false

/-- The single graph node of the C5 end-to-end scenario: `nSeqs = 4`. -/
def scenarioRpc : MFCDef := ⟨0, 4, true, true, [0, 1]⟩

/-- Responses of the C5 scenario: two source workers, each producing 3
samples with disjoint ids per round, two rounds available. -/
def scenarioSupply : List (List (Option (List Sample))) :=
  [[some [⟨1, [0]⟩, ⟨2, [0]⟩, ⟨3, [0]⟩], some [⟨4, [0]⟩, ⟨5, [0]⟩, ⟨6, [0]⟩]],
   [some [⟨7, [0]⟩, ⟨8, [0]⟩, ⟨9, [0]⟩], some [⟨10, [0]⟩, ⟨11, [0]⟩, ⟨12, [0]⟩]]]

/-- Initial loading state of the C5 scenario. -/
def scenarioInit : LoadState := ⟨[], ⟨0, 128, 0⟩, []⟩

-- ===== THEOREMS =====

/-! ### Rendering lemmas -/

theorem charVal_digitChar {d : Nat} (hd : d < 10) :
    charVal (Nat.digitChar d) = d := by
  interval_cases d <;> decide

theorem charsVal_decChars : ∀ (fuel n : Nat), n ≤ fuel →
    charsVal (decChars fuel n) = n := by
  intro fuel
  induction fuel with
  | zero => intro n hn; interval_cases n; decide
  | succ f ih =>
    intro n hn
    by_cases h0 : n = 0
    · subst h0; simp [decChars, charsVal]
    · have hdiv : n / 10 ≤ f := by
        have : n / 10 < n := Nat.div_lt_self (Nat.pos_of_ne_zero h0) (by omega)
        omega
      simp only [decChars, h0, if_false, charsVal]
      rw [charVal_digitChar (Nat.mod_lt n (by omega)), ih _ hdiv]
      omega

theorem charsVal_uuidChars (n : Nat) : charsVal (uuidChars n) = n := by
  by_cases h0 : n = 0
  · subst h0; decide
  · simp only [uuidChars, h0, if_false]
    exact charsVal_decChars (n + 1) n (by omega)

theorem uuidChars_injective {a b : Nat} (h : uuidChars a = uuidChars b) :
    a = b := by
  have := charsVal_uuidChars a
  rw [h, charsVal_uuidChars] at this
  omega

theorem digitChar_ne_newline {d : Nat} (hd : d < 10) :
    Nat.digitChar d ≠ '\n' := by
  interval_cases d <;> decide

theorem newline_not_mem_decChars : ∀ (fuel n : Nat), '\n' ∉ decChars fuel n := by
  intro fuel
  induction fuel with
  | zero => intro n; simp [decChars]
  | succ f ih =>
    intro n
    by_cases h0 : n = 0
    · simp [decChars, h0]
    · simp only [decChars, h0, if_false, List.mem_cons, not_or]
      exact ⟨fun h => digitChar_ne_newline (Nat.mod_lt n (by omega)) h.symm, ih _⟩

theorem newline_not_mem_uuidChars (n : Nat) : '\n' ∉ uuidChars n := by
  by_cases h0 : n = 0
  · subst h0; decide
  · simp only [uuidChars, h0, if_false]
    exact newline_not_mem_decChars (n + 1) n

/-! ### Escape and matching lemmas -/

theorem unescape_cons_not_bs {c : Char} (h : c ≠ '\\') (t : List Char) :
    unescape (c :: t) = (unescape t).map (fun l => c :: l) := by
  cases t <;> simp [unescape, h]

theorem unescape_bs (c : Char) (t : List Char) :
    unescape ('\\' :: c :: t) = (unescape t).map (fun l => c :: l) := by
  simp [unescape]

theorem reEscape_cons (c : Char) (t : List Char) :
    reEscape (c :: t) = reEscapeChar c ++ reEscape t := by
  simp [reEscape]

theorem unescape_reEscape (s : List Char) : unescape (reEscape s) = some s := by
  induction s with
  | nil => rfl
  | cons c t ih =>
    by_cases hc : c ∈ reSpecialChars
    · rw [reEscape_cons]
      simp only [reEscapeChar, hc, if_true]
      show unescape ('\\' :: c :: reEscape t) = some (c :: t)
      rw [unescape_bs, ih]
      rfl
    · have hbs : c ≠ '\\' := fun h => hc (h ▸ (by decide : '\\' ∈ reSpecialChars))
      rw [reEscape_cons]
      simp only [reEscapeChar, hc, if_false]
      show unescape (c :: reEscape t) = some (c :: t)
      rw [unescape_cons_not_bs hbs, ih]
      rfl

theorem litDollarMatch_reEscape (x s : List Char) :
    litDollarMatch (reEscape x) s = true ↔ (s = x ∨ s = x ++ ['\n']) := by
  simp [litDollarMatch, unescape_reEscape]

/-- Core matching lemma: the pattern built from `ids` matches a string `s`
containing no newline iff `s` is exactly one of the ids. -/
theorem reMatch_mem (ids : List (List Char)) (s : List Char)
    (hs : '\n' ∉ s) :
    reMatchPattern (create_exact_match_pattern ids) s = true ↔ s ∈ ids := by
  simp only [reMatchPattern, create_exact_match_pattern, List.any_map,
    List.any_eq_true, Function.comp]
  constructor
  · rintro ⟨x, hx, hm⟩
    rcases (litDollarMatch_reEscape x s).mp hm with h | h
    · exact h ▸ hx
    · exfalso; apply hs; rw [h]; simp
  · intro hmem
    exact ⟨s, hmem, (litDollarMatch_reEscape s s).mpr (Or.inl rfl)⟩

/-- Matching lemma specialised to request-id renderings: the exact-match
pattern built from the string forms of `ids` matches the string form of
`u` iff `u` is one of the ids. -/
theorem reMatch_uuid (ids : List Nat) (u : Nat) :
    reMatchPattern (create_exact_match_pattern (ids.map uuidChars))
      (uuidChars u) = true ↔ u ∈ ids := by
  rw [reMatch_mem _ _ (newline_not_mem_uuidChars u)]
  constructor
  · intro h
    rcases List.mem_map.mp h with ⟨v, hv, he⟩
    exact (uuidChars_injective he.symm) ▸ hv
  · intro h; exact List.mem_map.mpr ⟨u, h, rfl⟩

/-- C10: For every list of ids, the regex produced by
`create_exact_match_pattern`, as applied via `pattern.match` on the
string form of a request id (a string with no newline), matches iff the
string is exactly equal to one of the ids: metacharacters are escaped,
the alternation is anchored at the start by `match` and at the end by the
dollar. -/
theorem create_exact_match_pattern_spec (ids : List (List Char))
    (s : List Char) (hs : '\n' ∉ s) :
    reMatchPattern (create_exact_match_pattern ids) s = true ↔ s ∈ ids :=
  reMatch_mem ids s hs

/-- Witness for C10 at a concrete input containing a regex
metacharacter. -/
theorem create_exact_match_pattern_spec_witness :
    ('\n' ∉ ['a', '|', 'b']) ∧
      (reMatchPattern (create_exact_match_pattern [['a', '|', 'b'], ['c']])
        ['a', '|', 'b'] = true ↔ ['a', '|', 'b'] ∈ [['a', '|', 'b'], ['c']]) :=
  ⟨by decide, create_exact_match_pattern_spec [['a', '|', 'b'], ['c']]
    ['a', '|', 'b'] (by decide)⟩

/-! ### Poll semantics lemmas -/

theorem pollMatch_exact {u v : Nat} :
    pollMatch (some (create_exact_match_pattern [uuidChars u])) (uuidChars v) = true
      ↔ v = u := by
  show reMatchPattern _ _ = true ↔ _
  rw [show [uuidChars u] = ([u].map uuidChars) from rfl, reMatch_uuid]
  simp

theorem mem_bufferHits {pattern : Option ExactPattern} {buf : List Payload}
    {p : Payload} :
    p ∈ bufferHits pattern buf ↔
      p ∈ buf ∧ pollMatch pattern (uuidChars p.request_id) = true := by
  simp [bufferHits, List.mem_filter]

theorem bufferHits_nil_iff {pattern : Option ExactPattern} {buf : List Payload} :
    bufferHits pattern buf = [] ↔
      ∀ p ∈ buf, pollMatch pattern (uuidChars p.request_id) = false := by
  simp [bufferHits, List.filter_eq_nil_iff]

theorem bufferMisses_of_no_hits {pattern : Option ExactPattern} {buf : List Payload}
    (h : bufferHits pattern buf = []) : bufferMisses pattern buf = buf := by
  rw [bufferMisses, List.filter_eq_self]
  intro p hp
  simp [bufferHits_nil_iff.mp h p hp]

theorem bufferHits_append {pattern : Option ExactPattern} {a b : List Payload} :
    bufferHits pattern (a ++ b) = bufferHits pattern a ++ bufferHits pattern b := by
  simp [bufferHits, List.filter_append]

theorem bufferMisses_append {pattern : Option ExactPattern} {a b : List Payload} :
    bufferMisses pattern (a ++ b) = bufferMisses pattern a ++ bufferMisses pattern b := by
  simp [bufferMisses, List.filter_append]

theorem bufInsert_eq_append {buf : List Payload} {p : Payload}
    (h : p.request_id ∉ buf.map (fun q => q.request_id)) :
    bufInsert buf p = buf ++ [p] := by
  rw [bufInsert, if_neg]
  simp only [List.any_eq_true, beq_iff_eq, not_exists, not_and]
  intro q hq he
  exact h (List.mem_map.mpr ⟨q, hq, he⟩)

theorem mem_bufInsert {buf : List Payload} {p r : Payload}
    (h : r ∈ bufInsert buf p) : r ∈ buf ∨ r = p := by
  rw [bufInsert] at h
  by_cases hc : buf.any (fun q => q.request_id == p.request_id)
  · rw [if_pos hc] at h
    rcases List.mem_map.mp h with ⟨q, hq, he⟩
    by_cases hqe : q.request_id == p.request_id
    · right; rw [if_pos hqe] at he; exact he.symm
    · left; rw [if_neg hqe] at he; exact he ▸ hq
  · rw [if_neg hc] at h
    rcases List.mem_append.mp h with h | h
    · exact Or.inl h
    · exact Or.inr (List.mem_singleton.mp h)

theorem foldl_bufInsert_append : ∀ (tail base : List Payload),
    (((base ++ tail).map (fun p => p.request_id)).Nodup) →
    tail.foldl bufInsert base = base ++ tail := by
  intro tail
  induction tail with
  | nil => intro base _; simp
  | cons p t ih =>
    intro base hnd
    have hmem : p.request_id ∉ base.map (fun q => q.request_id) := by
      intro hin
      rw [List.map_append, List.nodup_append] at hnd
      exact hnd.2.2 hin (by simp)
    have h1 : bufInsert base p = base ++ [p] := bufInsert_eq_append hmem
    have h2 : (((base ++ [p]) ++ t).map (fun q => q.request_id)).Nodup := by
      rw [← List.append_cons]; exact hnd
    simp only [List.foldl_cons]
    rw [h1, ih (base ++ [p]) h2, ← List.append_cons]

/-- Case analysis of a successful non-blocking batch poll: either the
buffer already held matches, or one payload was pulled and produced the
matches. -/
theorem poll_batch_nonblock_some {pattern : Option ExactPattern}
    {st : ClientState} {ps : List Payload} {st2 : ClientState}
    (h : poll_batch_nonblock pattern st = (some ps, st2)) :
    (ps = bufferHits pattern st.response_buffer ∧ ps ≠ [] ∧
      st2 = ⟨bufferMisses pattern st.response_buffer, st.recvQueue⟩) ∨
    (∃ p q, st.recvQueue = p :: q ∧
      bufferHits pattern st.response_buffer = [] ∧
      ps = bufferHits pattern (bufInsert st.response_buffer p) ∧ ps ≠ [] ∧
      st2 = ⟨bufferMisses pattern (bufInsert st.response_buffer p), q⟩) := by
  obtain ⟨buf, queue⟩ := st
  cases queue with
  | nil =>
    simp only [poll_batch_nonblock] at h
    by_cases h1 : (bufferHits pattern buf).isEmpty = true
    · rw [if_pos h1] at h; simp at h
    · rw [if_neg h1] at h
      simp only [Prod.mk.injEq, Option.some.injEq] at h
      have hne : bufferHits pattern buf ≠ [] := by simpa using h1
      rw [h.1] at hne
      exact Or.inl ⟨h.1.symm, hne, h.2.symm⟩
  | cons p q =>
    simp only [poll_batch_nonblock] at h
    by_cases h1 : (bufferHits pattern buf).isEmpty = true
    · rw [if_pos h1] at h
      by_cases h2 : (bufferHits pattern (bufInsert buf p)).isEmpty = true
      · rw [if_pos h2] at h
        simp at h
      · rw [if_neg h2] at h
        simp only [Prod.mk.injEq, Option.some.injEq] at h
        have hne : bufferHits pattern (bufInsert buf p) ≠ [] := by simpa using h2
        rw [h.1] at hne
        exact Or.inr ⟨p, q, rfl, List.isEmpty_iff.mp h1, h.1.symm, hne, h.2.symm⟩
    · rw [if_neg h1] at h
      simp only [Prod.mk.injEq, Option.some.injEq] at h
      have hne : bufferHits pattern buf ≠ [] := by simpa using h1
      rw [h.1] at hne
      exact Or.inl ⟨h.1.symm, hne, h.2.symm⟩

/-- Case analysis of a failed non-blocking batch poll: the buffer had no
match, and either the channel was empty (state unchanged) or the one
pulled payload did not match either and was stored in the buffer. -/
theorem poll_batch_nonblock_none {pattern : Option ExactPattern}
    {st st2 : ClientState}
    (h : poll_batch_nonblock pattern st = (none, st2)) :
    bufferHits pattern st.response_buffer = [] ∧
    ((st.recvQueue = [] ∧ st2 = st) ∨
      (∃ p q, st.recvQueue = p :: q ∧
        bufferHits pattern (bufInsert st.response_buffer p) = [] ∧
        st2 = ⟨bufInsert st.response_buffer p, q⟩)) := by
  obtain ⟨buf, queue⟩ := st
  cases queue with
  | nil =>
    simp only [poll_batch_nonblock] at h
    by_cases h1 : (bufferHits pattern buf).isEmpty = true
    · rw [if_pos h1] at h
      simp only [Prod.mk.injEq] at h
      exact ⟨List.isEmpty_iff.mp h1, Or.inl ⟨rfl, h.2.symm⟩⟩
    · rw [if_neg h1] at h
      simp only [Prod.mk.injEq] at h
      exact absurd h.1 (by simp)
  | cons p q =>
    simp only [poll_batch_nonblock] at h
    by_cases h1 : (bufferHits pattern buf).isEmpty = true
    · rw [if_pos h1] at h
      refine ⟨List.isEmpty_iff.mp h1, ?_⟩
      by_cases h2 : (bufferHits pattern (bufInsert buf p)).isEmpty = true
      · rw [if_pos h2] at h
        simp only [Prod.mk.injEq] at h
        exact Or.inr ⟨p, q, rfl, List.isEmpty_iff.mp h2, h.2.symm⟩
      · rw [if_neg h2] at h
        simp only [Prod.mk.injEq] at h
        exact absurd h.1 (by simp)
    · rw [if_neg h1] at h
      simp only [Prod.mk.injEq] at h
      exact absurd h.1 (by simp)

/-- Every payload returned by a successful non-blocking batch poll matches
the pattern. -/
theorem poll_batch_nonblock_matches {pattern : Option ExactPattern}
    {st : ClientState} {ps : List Payload} {st2 : ClientState}
    (h : poll_batch_nonblock pattern st = (some ps, st2)) :
    ∀ p ∈ ps, pollMatch pattern (uuidChars p.request_id) = true := by
  rcases poll_batch_nonblock_some h with ⟨hps, _, _⟩ | ⟨p, q, _, _, hps, _, _⟩ <;>
    · intro r hr
      rw [hps] at hr
      exact (mem_bufferHits.mp hr).2

/-- Every payload returned by the fuelled blocking batch poll matches the
pattern, and the batch is nonempty. -/
theorem poll_batch_blockFuel_matches : ∀ (fuel : Nat)
    {pattern : Option ExactPattern} {st : ClientState}
    {ps : List Payload} {st2 : ClientState},
    poll_batch_blockFuel fuel pattern st = some (ps, st2) →
    ps ≠ [] ∧ ∀ p ∈ ps, pollMatch pattern (uuidChars p.request_id) = true := by
  intro fuel
  induction fuel with
  | zero => intro pattern st ps st2 h; exact absurd h (by simp [poll_batch_blockFuel])
  | succ f ih =>
    intro pattern st ps st2 h
    rw [poll_batch_blockFuel] at h
    cases hnb : poll_batch_nonblock pattern st with
    | mk fst snd =>
      rw [hnb] at h
      cases fst with
      | some qs =>
        simp only [Option.some.injEq, Prod.mk.injEq] at h
        obtain ⟨h1, h2⟩ := h
        subst h1 h2
        refine ⟨?_, poll_batch_nonblock_matches hnb⟩
        rcases poll_batch_nonblock_some hnb with ⟨_, hne, _⟩ | ⟨_, _, _, _, _, hne, _⟩ <;>
          exact hne
      | none => exact ih h

/-- A blocking single poll returns a payload matching the pattern. -/
theorem poll_block_matches {pattern : Option ExactPattern} {st : ClientState}
    {p : Payload} {st2 : ClientState}
    (h : poll_block pattern st = some (p, st2)) :
    pollMatch pattern (uuidChars p.request_id) = true := by
  rw [poll_block] at h
  cases hb : poll_batch_block pattern st with
  | none => rw [hb] at h; cases h
  | some r =>
    rw [hb] at h
    obtain ⟨ps, st3⟩ := r
    cases ps with
    | nil => cases h
    | cons p0 rest =>
      simp only [Option.some.injEq, Prod.mk.injEq] at h
      have := (poll_batch_blockFuel_matches _ hb).2 p0 (by simp)
      rw [h.1] at this
      exact this

/-- A non-blocking single poll that yields a payload yields one matching
the pattern. -/
theorem poll_nonblock_matches {pattern : Option ExactPattern} {st : ClientState}
    {p : Payload} {st2 : ClientState}
    (h : poll_nonblock pattern st = (some p, st2)) :
    pollMatch pattern (uuidChars p.request_id) = true := by
  rw [poll_nonblock] at h
  cases hnb : poll_batch_nonblock pattern st with
  | mk fst snd =>
    rw [hnb] at h
    cases fst with
    | none => simp at h
    | some qs =>
      cases qs with
      | nil => simp at h
      | cons p0 rest =>
        simp only [Prod.mk.injEq, Option.some.injEq] at h
        have := poll_batch_nonblock_matches hnb p0 (by simp)
        rw [h.1] at this
        exact this

/-- A blocking poll on the exact-match pattern of a single id returns a
payload carrying exactly that request id. -/
theorem poll_block_exact_uuid {u : Nat} {st : ClientState} {p : Payload}
    {st2 : ClientState}
    (h : poll_block (some (create_exact_match_pattern [uuidChars u])) st
      = some (p, st2)) :
    p.request_id = u :=
  pollMatch_exact.mp (poll_block_matches h)

/-- A non-blocking poll on the exact-match pattern of a single id returns
(if anything) a payload carrying exactly that request id. -/
theorem poll_nonblock_exact_uuid {u : Nat} {st : ClientState} {p : Payload}
    {st2 : ClientState}
    (h : poll_nonblock (some (create_exact_match_pattern [uuidChars u])) st
      = (some p, st2)) :
    p.request_id = u :=
  pollMatch_exact.mp (poll_nonblock_matches h)

/-- C6: for every sequence in which `post(payload)` sends a payload and a
later poll (blocking or not) is issued with the exact-match pattern built
from that payload request id, the payload returned by the poll has a
request id equal to the id returned by `post`. -/
theorem post_then_poll_requestId (p : Payload) (io : ClientIO) :
    (∀ (st : ClientState) (q : Payload) (st2 : ClientState),
      poll_block (some (create_exact_match_pattern [uuidChars (post p io).1])) st
        = some (q, st2) → q.request_id = (post p io).1) ∧
    (∀ (st : ClientState) (q : Payload) (st2 : ClientState),
      poll_nonblock (some (create_exact_match_pattern [uuidChars (post p io).1])) st
        = (some q, st2) → q.request_id = (post p io).1) :=
  ⟨fun _ _ _ h => poll_block_exact_uuid h,
   fun _ _ _ h => poll_nonblock_exact_uuid h⟩

/-- Witness for C6: a posted payload with request id 7, a reply with the
same id sitting in the channel, and a blocking poll retrieving it. -/
theorem post_then_poll_requestId_witness :
    (⟨Handler.widx 0, ['r'], 7, 8, 9, true, none⟩ : Payload).request_id
        = (post ⟨Handler.widx 0, ['f'], 7, 1, 2, true, none⟩ ⟨⟨[], []⟩, []⟩).1 ∧
    poll_block
        (some (create_exact_match_pattern
          [uuidChars (post ⟨Handler.widx 0, ['f'], 7, 1, 2, true, none⟩ ⟨⟨[], []⟩, []⟩).1]))
        ⟨[], [⟨Handler.widx 0, ['r'], 7, 8, 9, true, none⟩]⟩
      = some (⟨Handler.widx 0, ['r'], 7, 8, 9, true, none⟩, ⟨[], []⟩) ∧
    (⟨Handler.widx 0, ['r'], 7, 8, 9, true, none⟩ : Payload).request_id = 7 := by
  refine ⟨?_, ?_, ?_⟩
  · exact (post_then_poll_requestId ⟨Handler.widx 0, ['f'], 7, 1, 2, true, none⟩
      ⟨⟨[], []⟩, []⟩).1 ⟨[], [⟨Handler.widx 0, ['r'], 7, 8, 9, true, none⟩]⟩
      ⟨Handler.widx 0, ['r'], 7, 8, 9, true, none⟩ ⟨[], []⟩ (by decide)
  · decide
  · decide

/-! ### Blocking versus non-blocking poll (C7) -/

/-- Nodup of the request ids across buffer and channel is preserved when
one channel payload moves into the buffer. -/
theorem nodup_shift {buf : List Payload} {p : Payload} {q : List Payload}
    (hnd : (((buf ++ p :: q).map (fun r => r.request_id)).Nodup)) :
    ((((buf ++ [p]) ++ q).map (fun r => r.request_id)).Nodup) := by
  rw [← List.append_cons]; exact hnd

/-- Under distinct ids, inserting a pulled payload is a plain append. -/
theorem bufInsert_of_nodup {buf : List Payload} {p : Payload} {q : List Payload}
    (hnd : (((buf ++ p :: q).map (fun r => r.request_id)).Nodup)) :
    bufInsert buf p = buf ++ [p] := by
  apply bufInsert_eq_append
  intro hin
  rw [List.map_append, List.nodup_append] at hnd
  exact hnd.2.2 hin (by simp)

/-- The fuelled blocking poll succeeds whenever some payload in the buffer
or on the channel matches the pattern (ids distinct), given fuel above the
channel length. -/
theorem poll_batch_blockFuel_succeeds : ∀ (fuel : Nat)
    (pattern : Option ExactPattern) (st : ClientState),
    st.recvQueue.length < fuel →
    (((st.response_buffer ++ st.recvQueue).map (fun r => r.request_id)).Nodup) →
    (∃ r, (r ∈ st.response_buffer ∨ r ∈ st.recvQueue) ∧
      pollMatch pattern (uuidChars r.request_id) = true) →
    ∃ ps st2, poll_batch_blockFuel fuel pattern st = some (ps, st2) := by
  intro fuel
  induction fuel with
  | zero => intro pattern st hf; omega
  | succ f ih =>
    intro pattern st hf hnd hex
    obtain ⟨buf, queue⟩ := st
    rw [poll_batch_blockFuel]
    cases hnb : poll_batch_nonblock pattern ⟨buf, queue⟩ with
    | mk fst snd =>
      cases fst with
      | some ps => exact ⟨ps, snd, rfl⟩
      | none =>
        obtain ⟨hh, hcase⟩ := poll_batch_nonblock_none hnb
        rcases hcase with ⟨hq, hst⟩ | ⟨p, q, hq, hh2, hst⟩
        · exfalso
          obtain ⟨r, hr, hm⟩ := hex
          simp only at hq
          rcases hr with hr | hr
          · rw [bufferHits_nil_iff] at hh
            rw [hh r hr] at hm; cases hm
          · rw [hq] at hr; cases hr
        · simp only at hq
          subst hq
          have hins : bufInsert buf p = buf ++ [p] := bufInsert_of_nodup hnd
          apply ih pattern snd
          · rw [hst]
            simp only [List.length_cons] at hf ⊢
            omega
          · rw [hst]
            simp only [hins]
            exact nodup_shift hnd
          · obtain ⟨r, hr, hm⟩ := hex
            refine ⟨r, ?_, hm⟩
            rw [hst]
            simp only [hins, List.mem_append, List.mem_singleton]
            rcases hr with hr | hr
            · exact Or.inl (Or.inl hr)
            · rcases List.mem_cons.mp hr with hr | hr
              · exact Or.inl (Or.inr hr)
              · exact Or.inr hr

/-- C7: a poll with `block=False` raises `NoMessage` (modelled as `none`)
when neither the correlation buffer nor the inbound channel yields a
matching payload, instead of retrying; a poll with `block=True` does not
raise `NoMessage` and retries (with the fixed 0.05s backoff of the
source) until a match is found, succeeding whenever a matching payload is
in the buffer or on the channel. -/
theorem poll_block_nonblock_semantics (pattern : Option ExactPattern)
    (st : ClientState) :
    ((∀ r ∈ st.response_buffer, pollMatch pattern (uuidChars r.request_id) = false) →
     (∀ r ∈ st.recvQueue, pollMatch pattern (uuidChars r.request_id) = false) →
     (poll_nonblock pattern st).1 = none) ∧
    ((((st.response_buffer ++ st.recvQueue).map (fun r => r.request_id)).Nodup) →
     (∃ r, (r ∈ st.response_buffer ∨ r ∈ st.recvQueue) ∧
       pollMatch pattern (uuidChars r.request_id) = true) →
     ∃ p st2, poll_block pattern st = some (p, st2)) := by
  constructor
  · intro hbuf hq
    obtain ⟨buf, queue⟩ := st
    have hh : bufferHits pattern buf = [] := bufferHits_nil_iff.mpr hbuf
    rw [poll_nonblock]
    cases hnb : poll_batch_nonblock pattern ⟨buf, queue⟩ with
    | mk fst snd =>
      cases fst with
      | none => rfl
      | some ps =>
        exfalso
        rcases poll_batch_nonblock_some hnb with ⟨hps, hne, _⟩ | ⟨p, q, hqe, _, hps, hne, _⟩
        · exact hne (hps.trans hh)
        · simp only at hqe
          have hpm : pollMatch pattern (uuidChars p.request_id) = false :=
            hq p (by rw [hqe]; exact List.mem_cons_self p q)
          apply hne
          rw [hps]
          rw [bufferHits_nil_iff]
          intro r hr
          rcases mem_bufInsert hr with hr | hr
          · exact bufferHits_nil_iff.mp hh r hr
          · rw [hr]; exact hpm
  · intro hnd hex
    obtain ⟨ps, st2, hps⟩ :=
      poll_batch_blockFuel_succeeds (st.recvQueue.length + 1) pattern st
        (by omega) hnd hex
    have hne := (poll_batch_blockFuel_matches _ hps).1
    cases hpc : ps with
    | nil => exact absurd hpc hne
    | cons p rest =>
      refine ⟨p, rebufferTail st2 rest, ?_⟩
      rw [poll_block, poll_batch_block, hps, hpc]

/-- Witness for C7: a channel holding one non-matching payload (the
non-blocking poll raises), and a buffer holding a matching payload (the
blocking poll succeeds). -/
theorem poll_block_nonblock_semantics_witness :
    (poll_nonblock (some (create_exact_match_pattern [uuidChars 5]))
      ⟨[], [⟨Handler.widx 0, ['r'], 3, 0, 0, true, none⟩]⟩).1 = none ∧
    (∃ p st2, poll_block (some (create_exact_match_pattern [uuidChars 5]))
      ⟨[⟨Handler.widx 0, ['r'], 5, 0, 0, true, none⟩], []⟩ = some (p, st2)) := by
  constructor
  · exact (poll_block_nonblock_semantics
      (some (create_exact_match_pattern [uuidChars 5]))
      ⟨[], [⟨Handler.widx 0, ['r'], 3, 0, 0, true, none⟩]⟩).1
      (by intro r hr; cases hr) (by decide)
  · exact (poll_block_nonblock_semantics
      (some (create_exact_match_pattern [uuidChars 5]))
      ⟨[⟨Handler.widx 0, ['r'], 5, 0, 0, true, none⟩], []⟩).2
      (by decide)
      ⟨⟨Handler.widx 0, ['r'], 5, 0, 0, true, none⟩, by simp, by decide⟩

/-! ### Correlation buffer no-loss (C2) -/

theorem bufferHits_cons {pattern : Option ExactPattern} {r : Payload}
    {rest : List Payload} :
    bufferHits pattern (r :: rest) =
      if pollMatch pattern (uuidChars r.request_id) = true
      then r :: bufferHits pattern rest else bufferHits pattern rest := by
  simp [bufferHits, List.filter_cons]

theorem bufferHits_singleton {pattern : Option ExactPattern} {p : Payload} :
    bufferHits pattern [p] =
      if pollMatch pattern (uuidChars p.request_id) = true then [p] else [] := by
  simp [bufferHits, List.filter_singleton]

theorem bufferMisses_singleton_match {pattern : Option ExactPattern} {p : Payload}
    (h : pollMatch pattern (uuidChars p.request_id) = true) :
    bufferMisses pattern [p] = [] := by
  simp [bufferMisses, List.filter_singleton, h]

/-- Under distinct buffer ids, the exact-match pattern of a buffered
payload hits exactly that payload. -/
theorem bufferHits_exact_single : ∀ (buf : List Payload) (q : Payload),
    ((buf.map (fun r => r.request_id)).Nodup) → q ∈ buf →
    bufferHits (some (create_exact_match_pattern [uuidChars q.request_id])) buf
      = [q] := by
  intro buf
  induction buf with
  | nil => intro q _ hq; cases hq
  | cons r rest ih =>
    intro q hnd hq
    rw [List.map_cons, List.nodup_cons] at hnd
    rcases List.mem_cons.mp hq with hq | hq
    · subst hq
      rw [bufferHits_cons, if_pos (pollMatch_exact.mpr rfl)]
      have hrest : bufferHits
          (some (create_exact_match_pattern [uuidChars q.request_id])) rest = [] := by
        rw [bufferHits_nil_iff]
        intro p hp
        by_contra hc
        have hm : pollMatch (some (create_exact_match_pattern [uuidChars q.request_id]))
            (uuidChars p.request_id) = true := by
          cases hb : pollMatch (some (create_exact_match_pattern [uuidChars q.request_id]))
              (uuidChars p.request_id)
          · exact absurd hb hc
          · rfl
        have := pollMatch_exact.mp hm
        exact hnd.1 (List.mem_map.mpr ⟨p, hp, this⟩)
      rw [hrest]
    · have hrid : r.request_id ≠ q.request_id := by
        intro he
        exact hnd.1 (List.mem_map.mpr ⟨q, hq, he.symm⟩)
      rw [bufferHits_cons, if_neg, ih q hnd.2 hq]
      intro hm
      exact hrid (pollMatch_exact.mp hm)

theorem poll_nonblock_eq_some {pattern : Option ExactPattern} {st : ClientState}
    {p : Payload} {rest : List Payload} {snd : ClientState}
    (hnb : poll_batch_nonblock pattern st = (some (p :: rest), snd)) :
    poll_nonblock pattern st = (some p, rebufferTail snd rest) := by
  rw [poll_nonblock, hnb]

theorem poll_nonblock_eq_none {pattern : Option ExactPattern} {st snd : ClientState}
    (hnb : poll_batch_nonblock pattern st = (none, snd)) :
    poll_nonblock pattern st = (none, snd) := by
  rw [poll_nonblock, hnb]

/-- C2: the correlation buffer never loses a payload.  During one
non-blocking poll over a state with distinct request ids: every buffered
payload is either returned (and then it matches the pattern) or still
buffered afterwards; a payload pulled from the channel is either returned
(matching) or stored in the buffer keyed by its request id; returned
payloads match the pattern; request ids stay pairwise distinct in the
buffer; and a poll whose pattern is the exact-match pattern of a buffered
payload returns exactly that payload. -/
theorem correlation_buffer_no_loss (pattern : Option ExactPattern)
    (st : ClientState)
    (hnd : (((st.response_buffer ++ st.recvQueue).map (fun r => r.request_id)).Nodup)) :
    (∀ q ∈ st.response_buffer,
      ((poll_nonblock pattern st).1 = some q ∧
        pollMatch pattern (uuidChars q.request_id) = true) ∨
      q ∈ (poll_nonblock pattern st).2.response_buffer) ∧
    ((poll_nonblock pattern st).2.recvQueue = st.recvQueue ∨
      (∃ p rest, st.recvQueue = p :: rest ∧
        (poll_nonblock pattern st).2.recvQueue = rest ∧
        (((poll_nonblock pattern st).1 = some p ∧
          pollMatch pattern (uuidChars p.request_id) = true) ∨
         p ∈ (poll_nonblock pattern st).2.response_buffer))) ∧
    (∀ p, (poll_nonblock pattern st).1 = some p →
      pollMatch pattern (uuidChars p.request_id) = true) ∧
    (((poll_nonblock pattern st).2.response_buffer.map (fun r => r.request_id)).Nodup) ∧
    (∀ q ∈ st.response_buffer,
      pattern = some (create_exact_match_pattern [uuidChars q.request_id]) →
      (poll_nonblock pattern st).1 = some q) := by
  have hbufnd : ((st.response_buffer.map (fun r => r.request_id)).Nodup) := by
    have h := hnd
    rw [List.map_append, List.nodup_append] at h
    exact h.1
  cases hnb : poll_batch_nonblock pattern st with
  | mk fst snd =>
    cases fst with
    | some ps =>
      rcases poll_batch_nonblock_some hnb with ⟨hps, hne, hsnd⟩ |
        ⟨p, q', hq, hh, hps, hne, hsnd⟩
      · -- matches found directly in the buffer
        cases hpse : ps with
        | nil => exact absurd hpse hne
        | cons h0 t =>
          have hD := poll_nonblock_eq_some (hpse ▸ hnb)
          have hperm : List.Perm
              (bufferHits pattern st.response_buffer ++
                bufferMisses pattern st.response_buffer) st.response_buffer :=
            List.filter_append_perm _ _
          have hhm_nd : (((bufferHits pattern st.response_buffer ++
              bufferMisses pattern st.response_buffer).map
                (fun r => r.request_id)).Nodup) :=
            ((hperm.map (fun r => r.request_id)).nodup_iff).mpr hbufnd
          have hcom : List.Perm
              (bufferHits pattern st.response_buffer ++
                bufferMisses pattern st.response_buffer)
              (bufferMisses pattern st.response_buffer ++
                bufferHits pattern st.response_buffer) :=
            List.perm_append_comm
          have hmh_nd : (((bufferMisses pattern st.response_buffer ++
              bufferHits pattern st.response_buffer).map
                (fun r => r.request_id)).Nodup) :=
            ((hcom.map (fun r => r.request_id)).nodup_iff).mp hhm_nd
          have hhits : bufferHits pattern st.response_buffer = h0 :: t := by
            rw [← hps, hpse]
          have hmt_nd : (((bufferMisses pattern st.response_buffer ++ t).map
              (fun r => r.request_id)).Nodup) := by
            rw [hhits] at hmh_nd
            apply List.Nodup.sublist _ hmh_nd
            apply List.Sublist.map
            exact List.Sublist.append_left (List.Sublist.cons h0 (List.Sublist.refl t)) _
          have hst2 : rebufferTail snd t =
              ⟨bufferMisses pattern st.response_buffer ++ t, st.recvQueue⟩ := by
            rw [hsnd, rebufferTail]
            simp only
            rw [foldl_bufInsert_append t _ hmt_nd]
          rw [hst2] at hD
          refine ⟨?_, ?_, ?_, ?_, ?_⟩
          · intro q hqb
            by_cases hm : pollMatch pattern (uuidChars q.request_id) = true
            · have hqh : q ∈ bufferHits pattern st.response_buffer :=
                mem_bufferHits.mpr ⟨hqb, hm⟩
              rw [hhits] at hqh
              rcases List.mem_cons.mp hqh with hq0 | hqt
              · left
                rw [hD, hq0]
                exact ⟨rfl, hq0 ▸ hm⟩
              · right
                rw [hD]
                exact List.mem_append.mpr (Or.inr hqt)
            · right
              rw [hD]
              refine List.mem_append.mpr (Or.inl ?_)
              rw [bufferMisses, List.mem_filter]
              exact ⟨hqb, by simp [Bool.not_eq_true] at hm; simp [hm]⟩
          · left; rw [hD]
          · intro p hp
            rw [hD] at hp
            simp only [Option.some.injEq] at hp
            have : h0 ∈ bufferHits pattern st.response_buffer := by
              rw [hhits]; exact List.mem_cons_self h0 t
            rw [hp] at this
            exact (mem_bufferHits.mp this).2
          · rw [hD]; exact hmt_nd
          · intro q hqb hpat
            subst hpat
            have hsingle := bufferHits_exact_single st.response_buffer q hbufnd hqb
            rw [hhits] at hsingle
            have h0q : h0 = q := by
              have := List.cons.injEq h0 t q [] ▸ hsingle
              exact (List.cons.inj hsingle).1
            rw [hD, h0q]
      · -- match produced by the pulled payload
        rw [hq] at hnd
        have hins : bufInsert st.response_buffer p = st.response_buffer ++ [p] :=
          bufInsert_of_nodup hnd
        have hmp : pollMatch pattern (uuidChars p.request_id) = true := by
          by_contra hc
          apply hne
          rw [hps, hins, bufferHits_append, hh, List.nil_append, bufferHits_singleton,
            if_neg hc]
        have hpsp : ps = [p] := by
          rw [hps, hins, bufferHits_append, hh, List.nil_append, bufferHits_singleton,
            if_pos hmp]
        have hsnd2 : snd = ⟨st.response_buffer, q'⟩ := by
          rw [hsnd, hins, bufferMisses_append, bufferMisses_of_no_hits hh,
            bufferMisses_singleton_match hmp, List.append_nil]
        have hD := poll_nonblock_eq_some (hpsp ▸ hnb)
        have hreb : rebufferTail snd [] = snd := rfl
        rw [hreb, hsnd2] at hD
        refine ⟨?_, ?_, ?_, ?_, ?_⟩
        · intro q hqb
          right
          rw [hD]
          exact hqb
        · right
          exact ⟨p, q', hq, by rw [hD], Or.inl ⟨by rw [hD], hmp⟩⟩
        · intro r hr
          rw [hD] at hr
          simp only [Option.some.injEq] at hr
          rw [← hr]
          exact hmp
        · rw [hD]
          exact hbufnd
        · intro q hqb hpat
          exfalso
          subst hpat
          have hsingle := bufferHits_exact_single st.response_buffer q hbufnd hqb
          rw [hh] at hsingle
          cases hsingle
    | none =>
      obtain ⟨hh, hcase⟩ := poll_batch_nonblock_none hnb
      have hD := poll_nonblock_eq_none hnb
      rcases hcase with ⟨hq0, hsnd⟩ | ⟨p, q', hq, hh2, hsnd⟩
      · refine ⟨?_, ?_, ?_, ?_, ?_⟩
        · intro q hqb
          right
          rw [hD, hsnd]
          exact hqb
        · left
          rw [hD, hsnd]
        · intro p hp
          rw [hD] at hp
          cases hp
        · rw [hD, hsnd]
          exact hbufnd
        · intro q hqb hpat
          exfalso
          subst hpat
          have hsingle := bufferHits_exact_single st.response_buffer q hbufnd hqb
          rw [hh] at hsingle
          cases hsingle
      · rw [hq] at hnd
        have hins : bufInsert st.response_buffer p = st.response_buffer ++ [p] :=
          bufInsert_of_nodup hnd
        refine ⟨?_, ?_, ?_, ?_, ?_⟩
        · intro q hqb
          right
          rw [hD, hsnd, hins]
          exact List.mem_append.mpr (Or.inl hqb)
        · right
          refine ⟨p, q', hq, by rw [hD, hsnd], Or.inr ?_⟩
          rw [hD, hsnd, hins]
          exact List.mem_append.mpr (Or.inr (List.mem_singleton.mpr rfl))
        · intro r hr
          rw [hD] at hr
          cases hr
        · rw [hD, hsnd]
          simp only [hins]
          have := nodup_shift hnd
          rw [List.map_append, List.nodup_append] at this
          exact this.1
        · intro q hqb hpat
          exfalso
          subst hpat
          have hsingle := bufferHits_exact_single st.response_buffer q hbufnd hqb
          rw [hh] at hsingle
          cases hsingle

/-- Witness for C2: buffer holding two payloads, channel holding one, and
the exact-match pattern of the second buffered payload. -/
theorem correlation_buffer_no_loss_witness :
    ((((([⟨Handler.widx 0, ['r'], 1, 0, 0, true, none⟩,
        ⟨Handler.widx 0, ['r'], 2, 0, 0, true, none⟩] : List Payload) ++
       ([⟨Handler.widx 1, ['r'], 3, 0, 0, true, none⟩] : List Payload))).map
         (fun r : Payload => r.request_id)).Nodup) ∧
    (∀ q ∈ [(⟨Handler.widx 0, ['r'], 1, 0, 0, true, none⟩ : Payload),
        ⟨Handler.widx 0, ['r'], 2, 0, 0, true, none⟩],
      (some (create_exact_match_pattern [uuidChars 2])
          = some (create_exact_match_pattern [uuidChars q.request_id])) →
      (poll_nonblock (some (create_exact_match_pattern [uuidChars 2]))
        ⟨[⟨Handler.widx 0, ['r'], 1, 0, 0, true, none⟩,
          ⟨Handler.widx 0, ['r'], 2, 0, 0, true, none⟩],
         [⟨Handler.widx 1, ['r'], 3, 0, 0, true, none⟩]⟩).1 = some q) := by
  constructor
  · decide
  · exact (correlation_buffer_no_loss
      (some (create_exact_match_pattern [uuidChars 2]))
      ⟨[⟨Handler.widx 0, ['r'], 1, 0, 0, true, none⟩,
        ⟨Handler.widx 0, ['r'], 2, 0, 0, true, none⟩],
       [⟨Handler.widx 1, ['r'], 3, 0, 0, true, none⟩]⟩ (by decide)).2.2.2.2

/-! ### The SYN/ACK handshake of request (C1) -/

theorem postAll_st : ∀ (ps : List Payload) (io : ClientIO),
    (postAll ps io).st = io.st := by
  intro ps
  induction ps with
  | nil => intro io; rfl
  | cons p t ih =>
    intro io
    show (postAll t ⟨io.st, io.sent ++ [p]⟩).st = io.st
    rw [ih]

theorem postAll_sent : ∀ (ps : List Payload) (io : ClientIO),
    (postAll ps io).sent = io.sent ++ ps := by
  intro ps
  induction ps with
  | nil => intro io; simp [postAll]
  | cons p t ih =>
    intro io
    show (postAll t ⟨io.st, io.sent ++ [p]⟩).sent = io.sent ++ p :: t
    rw [ih, ← List.append_cons]

theorem pollSyns_spec : ∀ (rs : List Payload) (st : ClientState)
    (ps : List Payload) (st2 : ClientState),
    pollSyns rs st = some (ps, st2) →
    ps.length = rs.length ∧
    ∀ i, i < rs.length →
      (ps.getD i payload0).request_id = (rs.getD i payload0).syn_reply_id := by
  intro rs
  induction rs with
  | nil =>
    intro st ps st2 h
    simp only [pollSyns, Option.some.injEq, Prod.mk.injEq] at h
    rw [← h.1]
    exact ⟨rfl, fun i hi => absurd hi (by simp)⟩
  | cons r rest ih =>
    intro st ps st2 h
    rw [pollSyns] at h
    cases hpb : poll_block (some (create_exact_match_pattern
        [uuidChars r.syn_reply_id])) st with
    | none => rw [hpb] at h; cases h
    | some pr =>
      obtain ⟨p, stm⟩ := pr
      rw [hpb] at h
      have h2 : (match pollSyns rest stm with
        | none => none
        | some (ps, st3) => some (p :: ps, st3)) = some (ps, st2) := h
      cases hrec : pollSyns rest stm with
      | none => rw [hrec] at h2; cases h2
      | some pr2 =>
        obtain ⟨ps2, st3⟩ := pr2
        rw [hrec] at h2
        simp only [Option.some.injEq, Prod.mk.injEq] at h2
        obtain ⟨h1, _⟩ := h2
        have hp : p.request_id = r.syn_reply_id := poll_block_exact_uuid hpb
        obtain ⟨ihl, ihe⟩ := ih stm ps2 st3 hrec
        constructor
        · rw [← h1, List.length_cons, List.length_cons, ihl]
        · intro i hi
          rw [← h1]
          cases i with
          | zero => simpa using hp
          | succ j =>
            simp only [List.getD_cons_succ]
            exact ihe j (by simpa using hi)

theorem mkRequestPayloadsAux_length (htype : List Char) (no_syn : Bool)
    (fresh : Nat → Nat) : ∀ (l : List (Handler × Option Nat)) (i : Nat),
    (mkRequestPayloadsAux htype no_syn fresh l i).length = l.length := by
  intro l
  induction l with
  | nil => intro i; rfl
  | cons hd t ih =>
    intro i
    obtain ⟨hh, dd⟩ := hd
    show (mkRequestPayloadsAux htype no_syn fresh t (i + 1)).length + 1 = t.length + 1
    rw [ih]

theorem mkRequestPayloads_length (handlers : List Handler) (htype : List Char)
    (datas : List (Option Nat)) (no_syn : Bool) (fresh : Nat → Nat) :
    (mkRequestPayloads handlers htype datas no_syn fresh).length
      = (List.zip handlers datas).length :=
  mkRequestPayloadsAux_length htype no_syn fresh _ 0

theorem acksOfAux_length (fresh : Nat → Nat) (base : Nat) :
    ∀ (rs : List Payload) (i : Nat),
    (acksOfAux fresh base rs i).length = rs.length := by
  intro rs
  induction rs with
  | nil => intro i; rfl
  | cons r t ih =>
    intro i
    show (acksOfAux fresh base t (i + 1)).length + 1 = t.length + 1
    rw [ih]

theorem acksOf_length (requests : List Payload) (fresh : Nat → Nat) :
    (acksOf requests fresh).length = requests.length :=
  acksOfAux_length fresh _ requests 0

theorem acksOfAux_fields (fresh : Nat → Nat) (base : Nat) :
    ∀ (rs : List Payload) (i j : Nat), j < rs.length →
    ((acksOfAux fresh base rs i).getD j payload0).handle_name = ackName ∧
    ((acksOfAux fresh base rs i).getD j payload0).request_id =
      (rs.getD j payload0).ack_reply_id ∧
    ((acksOfAux fresh base rs i).getD j payload0).handler =
      (rs.getD j payload0).handler := by
  intro rs
  induction rs with
  | nil => intro i j hj; exact absurd hj (by simp)
  | cons r t ih =>
    intro i j hj
    cases j with
    | zero => exact ⟨rfl, rfl, rfl⟩
    | succ k =>
      show ((acksOfAux fresh base t (i + 1)).getD k payload0).handle_name = ackName ∧ _
      exact ih (i + 1) k (by simpa using hj)

/-- C1: a `request` call with `noSync=false` over a list of handlers
first posts one request payload per `(handler, data)` pair, then blocks
polling until, for every request, a reply whose request id equals that
request syn reply id has been observed, and only after all SYNs posts one
ack payload to every handler with request id equal to the corresponding
ack reply id, finally returning the request ids in handler order. -/
theorem request_handshake_spec (handlers : List Handler) (htype : List Char)
    (datas : List (Option Nat)) (fresh : Nat → Nat) (io : ClientIO)
    (h : (pollSyns (mkRequestPayloads handlers htype datas false fresh)
        (postAll (mkRequestPayloads handlers htype datas false fresh) io).st).isSome
      = true) :
    RequestHandshakeConcl handlers htype datas fresh io := by
  obtain ⟨⟨syns, st2⟩, hsome⟩ := Option.isSome_iff_exists.mp h
  have hreq : request handlers htype datas false fresh io =
      some ((mkRequestPayloads handlers htype datas false fresh).map
          (fun r => r.request_id),
        postAll (acksOf (mkRequestPayloads handlers htype datas false fresh) fresh)
          ⟨st2, (postAll (mkRequestPayloads handlers htype datas false fresh) io).sent⟩) := by
    rw [request]
    simp only [Bool.false_eq_true, if_false]
    rw [hsome]
  refine ⟨_, _, syns, st2, hreq, hsome, rfl,
    mkRequestPayloads_length handlers htype datas false fresh, ?_, ?_, ?_, ?_,
    acksOf_length _ fresh, ?_⟩
  · rw [postAll_sent, postAll_sent]
  · rw [postAll_st]
  · exact (pollSyns_spec _ _ _ _ hsome).1
  · exact (pollSyns_spec _ _ _ _ hsome).2
  · intro i hi
    exact acksOfAux_fields fresh _ _ 0 i hi

/-- Witness for C1: two handlers, with the two SYN replies already on the
inbound channel. -/
theorem request_handshake_spec_witness :
    RequestHandshakeConcl [Handler.widx 0, Handler.widx 1] ['f']
      [some 5, none] (fun n => n)
      ⟨⟨[], [⟨Handler.widx 0, ['s'], 1, 90, 91, true, none⟩,
             ⟨Handler.widx 1, ['s'], 4, 92, 93, true, none⟩]⟩, []⟩ :=
  request_handshake_spec [Handler.widx 0, Handler.widx 1] ['f']
    [some 5, none] (fun n => n)
    ⟨⟨[], [⟨Handler.widx 0, ['s'], 1, 90, 91, true, none⟩,
           ⟨Handler.widx 1, ['s'], 4, 92, 93, true, none⟩]⟩, []⟩
    (by decide)

/-! ### The topological flush task (C3) -/

theorem takesBeforeFlush_replicate : ∀ (w : Nat) (tr : List FlushEvent) (i acc : Nat),
    takesBeforeFlush (List.replicate w FlushEvent.take ++ tr) i acc =
      takesBeforeFlush tr i (acc + w) := by
  intro w
  induction w with
  | zero => intro tr i acc; simp [List.replicate]
  | succ v ih =>
    intro tr i acc
    rw [List.replicate_succ, List.cons_append]
    show takesBeforeFlush (List.replicate v FlushEvent.take ++ tr) i (acc + 1) = _
    rw [ih]
    congr 1
    omega

theorem takesBeforeFlush_trace : ∀ (widths : List Nat) (n i : Nat),
    i < widths.length →
    takesBeforeFlush (flush_calls_trace widths n) i 0 = some (widths.getD i 0) := by
  intro widths
  induction widths with
  | nil => intro n i hi; exact absurd hi (by simp)
  | cons w rest ih =>
    intro n i hi
    rw [flush_calls_trace, takesBeforeFlush_replicate]
    cases i with
    | zero =>
      show some (0 + w) = some ((w :: rest).getD 0 0)
      simp
    | succ j =>
      show takesBeforeFlush (flush_calls_trace rest n) j 0 = some (rest.getD j 0)
      exact ih n j (by simpa using hi)

theorem flush_trace_handlers : ∀ (widths : List Nat) (n : Nat) (hs : List Nat),
    FlushEvent.flush hs ∈ flush_calls_trace widths n → hs = List.range n := by
  intro widths
  induction widths with
  | nil => intro n hs h; cases h
  | cons w rest ih =>
    intro n hs h
    rw [flush_calls_trace] at h
    rcases List.mem_append.mp h with h | h
    · exact FlushEvent.noConfusion (List.eq_of_mem_replicate h)
    · rcases List.mem_cons.mp h with h | h
      · exact FlushEvent.flush.inj h
      · exact ih n hs h

/-- C3: the flush task walks the topological generations in order - for
the i-th generation of the graph it consumes exactly `width i`
level-completion signals after the previous flush and before issuing the
i-th flush, and every flush it issues is a broadcast to all `n` model
workers. -/
theorem flush_calls_level_spec (nodes : List Nat) (edges : List (Nat × Nat))
    (n i : Nat) (hi : i < (topo_widths nodes edges).length) :
    takesBeforeFlush (flush_calls_trace (topo_widths nodes edges) n) i 0
      = some ((topo_widths nodes edges).getD i 0) ∧
    ∀ hs, FlushEvent.flush hs ∈ flush_calls_trace (topo_widths nodes edges) n →
      hs = List.range n :=
  ⟨takesBeforeFlush_trace _ n i hi, fun hs h => flush_trace_handlers _ n hs h⟩

/-- Witness for C3: the graph 0, 1 → 2 has generation widths [2, 1], and
the flush task consumes exactly 2 signals before the first broadcast and
exactly 1 before the second. -/
theorem flush_calls_level_spec_witness :
    topo_widths [0, 1, 2] [(0, 2), (1, 2)] = [2, 1] ∧
    takesBeforeFlush
        (flush_calls_trace (topo_widths [0, 1, 2] [(0, 2), (1, 2)]) 3) 0 0
      = some ((topo_widths [0, 1, 2] [(0, 2), (1, 2)]).getD 0 0) ∧
    takesBeforeFlush
        (flush_calls_trace (topo_widths [0, 1, 2] [(0, 2), (1, 2)]) 3) 1 0
      = some ((topo_widths [0, 1, 2] [(0, 2), (1, 2)]).getD 1 0) ∧
    (topo_widths [0, 1, 2] [(0, 2), (1, 2)]).getD 0 0 = 2 ∧
    (topo_widths [0, 1, 2] [(0, 2), (1, 2)]).getD 1 0 = 1 :=
  ⟨by decide,
   (flush_calls_level_spec [0, 1, 2] [(0, 2), (1, 2)] 3 0 (by decide)).1,
   (flush_calls_level_spec [0, 1, 2] [(0, 2), (1, 2)] 3 1 (by decide)).1,
   by decide, by decide⟩

/-! ### Endpoint construction (C8) -/

theorem reply_server_init_ok_iff (recvAppear sendAppear : Option Nat) :
    (∃ p, reply_server_init recvAppear sendAppear = .ok p) ↔
      ((∃ t, recvAppear = some t ∧ t ≤ 300) ∧
       (∃ t, sendAppear = some t ∧ t ≤ 300)) := by
  cases recvAppear with
  | none => simp [reply_server_init, name_resolve_wait, workerWaitTimeout]
  | some a =>
    cases sendAppear with
    | none =>
      by_cases ha : a ≤ 300 <;>
        simp [reply_server_init, name_resolve_wait, workerWaitTimeout, ha]
    | some b =>
      by_cases ha : a ≤ 300 <;> by_cases hb : b ≤ 300 <;>
        simp [reply_server_init, name_resolve_wait, workerWaitTimeout, ha, hb]

theorem reply_server_init_error_iff (recvAppear sendAppear : Option Nat) :
    reply_server_init recvAppear sendAppear = .error () ↔
      ¬ (∃ p, reply_server_init recvAppear sendAppear = .ok p) := by
  cases hr : reply_server_init recvAppear sendAppear with
  | ok p => simp
  | error e => cases e; simp

theorem master_barrier_wait_iff : ∀ (counts : List Nat) (n k : Nat),
    master_barrier_wait counts n = some k ↔
      (k < counts.length ∧ n ≤ counts.getD k 0 ∧ ∀ j < k, counts.getD j 0 < n) := by
  intro counts
  induction counts with
  | nil => intro n k; simp [master_barrier_wait]
  | cons c cs ih =>
    intro n k
    rw [master_barrier_wait]
    by_cases hc : c < n
    · rw [if_pos hc]
      cases hm : master_barrier_wait cs n with
      | none =>
        simp only [Option.map_none']
        constructor
        · intro h; cases h
        · rintro ⟨hk, hnk, hall⟩
          exfalso
          cases k with
          | zero =>
            rw [List.getD_cons_zero] at hnk
            omega
          | succ j =>
            have hj : master_barrier_wait cs n = some j := by
              rw [ih]
              refine ⟨by simpa using hk, by simpa using hnk, ?_⟩
              intro j2 hj2
              have := hall (j2 + 1) (by omega)
              simpa using this
            rw [hm] at hj
            cases hj
      | some k2 =>
        simp only [Option.map_some', Option.some.injEq]
        obtain ⟨h1, h2, h3⟩ := (ih n k2).mp hm
        constructor
        · intro hk
          subst hk
          refine ⟨by simpa using h1, by simpa using h2, ?_⟩
          intro j hj
          cases j with
          | zero => simpa using hc
          | succ j2 =>
            rw [List.getD_cons_succ]
            exact h3 j2 (by omega)
        · rintro ⟨hk, hnk, hall⟩
          cases k with
          | zero =>
            rw [List.getD_cons_zero] at hnk
            omega
          | succ j =>
            have hj : master_barrier_wait cs n = some j := by
              rw [ih]
              refine ⟨by simpa using hk, by simpa using hnk, ?_⟩
              intro j2 hj2
              have := hall (j2 + 1) (by omega)
              simpa using this
            rw [hm] at hj
            injection hj with hj
            omega
    · rw [if_neg hc]
      constructor
      · intro h
        injection h with h
        subst h
        exact ⟨by simp, by simpa using Nat.le_of_not_lt hc, by omega⟩
      · rintro ⟨hk, hnk, hall⟩
        cases k with
        | zero => rfl
        | succ j =>
          exfalso
          have := hall 0 (by omega)
          rw [List.getD_cons_zero] at this
          omega

theorem master_barrier_no_timeout : ∀ (j m : Nat),
    master_barrier_wait (List.replicate j 0 ++ [m + 1]) (m + 1) = some j := by
  intro j
  induction j with
  | zero => intro m; simp [master_barrier_wait]
  | succ i ih =>
    intro m
    rw [List.replicate_succ, List.cons_append, master_barrier_wait,
      if_pos (by omega), ih]
    rfl

/-- C8 counterexample: the coordinator barrier loop exits as soon as the
marker count is at least the expected worker count, not when it equals
it - with expected count 3 and a first observed count of 4, construction
completes although the count never equals 3. -/
theorem master_barrier_equals_counterexample :
    master_barrier_wait [4] 3 = some 0 ∧ [4].getD 0 0 ≠ 3 ∧
    ¬ (∀ (counts : List Nat) (n k : Nat),
        master_barrier_wait counts n = some k → counts.getD k 0 = n) := by
  refine ⟨by decide, by decide, ?_⟩
  intro hall
  exact absurd (hall [4] 3 0 (by decide)) (by decide)

/-- C8 (amended): worker endpoint construction succeeds iff each of the
two coordinator addresses appears within the fixed timeout of 300 time
units and raises a timeout error otherwise, while coordinator endpoint
construction polls the barrier key at a fixed short interval with no
upper timeout until the number of barrier markers is at least the
expected worker count (exiting at the first such poll, after arbitrarily
many polls below the expected count). -/
theorem endpoint_construction_waits (recvAppear sendAppear : Option Nat)
    (counts : List Nat) (n k : Nat) :
    ((∃ p, reply_server_init recvAppear sendAppear = .ok p) ↔
      ((∃ t, recvAppear = some t ∧ t ≤ 300) ∧
       (∃ t, sendAppear = some t ∧ t ≤ 300))) ∧
    ((reply_server_init recvAppear sendAppear = .error ()) ↔
      ¬ ((∃ t, recvAppear = some t ∧ t ≤ 300) ∧
         (∃ t, sendAppear = some t ∧ t ≤ 300))) ∧
    (master_barrier_wait counts n = some k ↔
      (k < counts.length ∧ n ≤ counts.getD k 0 ∧ ∀ j < k, counts.getD j 0 < n)) ∧
    (∀ m j, master_barrier_wait (List.replicate j 0 ++ [m + 1]) (m + 1) = some j) :=
  ⟨reply_server_init_ok_iff recvAppear sendAppear,
   (reply_server_init_error_iff recvAppear sendAppear).trans
     (not_congr (reply_server_init_ok_iff recvAppear sendAppear)),
   master_barrier_wait_iff counts n k,
   fun m j => master_barrier_no_timeout j m⟩

/-! ### Executor construction rejects zero-worker nodes (C9) -/

theorem mkFunctionCalls_error_of_zero : ∀ (rpcs : List MFCDef),
    (∃ rpc ∈ rpcs, rpc.workers = []) →
    ∃ e, mkFunctionCalls rpcs = .error e := by
  intro rpcs
  induction rpcs with
  | nil => rintro ⟨r, hr, _⟩; cases hr
  | cons r rest ih =>
    rintro ⟨q, hq, hw⟩
    rw [mkFunctionCalls]
    by_cases hr0 : r.workers.isEmpty = true
    · rw [mkModelFunctionCall, if_pos hr0]
      exact ⟨ExecInitError.zeroWorkerNode, rfl⟩
    · rw [mkModelFunctionCall, if_neg hr0]
      rcases List.mem_cons.mp hq with hq | hq
      · exfalso
        subst hq
        exact hr0 (by rw [hw]; rfl)
      · obtain ⟨e, he⟩ := ih ⟨q, hq, hw⟩
        rw [he]
        exact ⟨e, rfl⟩

/-- C9: a graph containing a node with zero assigned workers is rejected
during executor construction, before `execute_step` can start any
coordinator task (the EXECUTING state). -/
theorem executor_rejects_zero_worker (rpcs : List MFCDef)
    (h : ∃ rpc ∈ rpcs, rpc.workers = []) :
    ∃ e, mkFunctionExecutor rpcs = .error e := by
  rw [mkFunctionExecutor]
  cases hf : rpcs.find? (fun r => r.is_src) with
  | none => exact ⟨ExecInitError.noSourceNode, rfl⟩
  | some s => exact mkFunctionCalls_error_of_zero rpcs h

/-- Witness for C9: a one-node graph whose node has no workers. -/
theorem executor_rejects_zero_worker_witness :
    ∃ e, mkFunctionExecutor [⟨0, 4, true, true, []⟩] = .error e :=
  executor_rejects_zero_worker [⟨0, 4, true, true, []⟩]
    ⟨⟨0, 4, true, true, []⟩, by simp, rfl⟩

/-! ### Duplicate sample ids abort the round (C4) -/

theorem dedupScan_fst_none_iff : ∀ (xs : List Sample) (received : List Nat),
    (dedupScan xs received).1 = none ↔
      ((xs.map (fun s => s.sid)).Nodup ∧ ∀ s ∈ xs, s.sid ∉ received) := by
  intro xs
  induction xs with
  | nil => intro received; simp [dedupScan]
  | cons x rest ih =>
    intro received
    rw [dedupScan]
    by_cases hx : x.sid ∈ received
    · rw [if_pos hx]
      simp only [List.map_cons, List.nodup_cons]
      constructor
      · intro h; cases h
      · rintro ⟨_, hall⟩
        exact absurd hx (hall x (List.mem_cons_self x rest))
    · rw [if_neg hx, ih]
      constructor
      · rintro ⟨hnd, hall⟩
        refine ⟨?_, ?_⟩
        · rw [List.map_cons, List.nodup_cons]
          refine ⟨?_, hnd⟩
          intro hmem
          rcases List.mem_map.mp hmem with ⟨s, hs, he⟩
          exact (hall s hs) (by rw [he]; exact List.mem_cons_self _ _)
        · intro s hsmem
          rcases List.mem_cons.mp hsmem with he | hmem2
          · rw [he]; exact hx
          · intro hrec
            exact (hall s hmem2) (List.mem_cons_of_mem _ hrec)
      · rintro ⟨hnd, hall⟩
        rw [List.map_cons, List.nodup_cons] at hnd
        refine ⟨hnd.2, fun s hs => ?_⟩
        intro hmem
        rcases List.mem_cons.mp hmem with he | hmem2
        · exact hnd.1 (List.mem_map.mpr ⟨s, hs, he⟩)
        · exact (hall s (List.mem_cons_of_mem x hs)) hmem2

/-- C4: whenever a round of fetched samples contains an id already
received this step (or repeated inside the round), the round aborts with
the duplicate-sample-id error and neither the sequence buffer nor the
storage tracker receives any sample of that round. -/
theorem duplicate_rejected_before_insert (routeData : Nat → Nat)
    (shuffle : List Sample → List Sample)
    (resps : List (Option (List Sample))) (st : LoadState)
    (hd : ¬ ((((roundSamples resps).map (fun s => s.sid)).Nodup) ∧
      ∀ s ∈ roundSamples resps, s.sid ∉ st.received)) :
    ∃ i st2, processRound routeData shuffle resps st = .dup i st2 ∧
      st2.buffer = st.buffer ∧ st2.tracker = st.tracker := by
  have hne : (dedupScan (roundSamples resps) st.received).1 ≠ none :=
    fun hcontra => hd ((dedupScan_fst_none_iff _ _).mp hcontra)
  cases hscan : dedupScan (roundSamples resps) st.received with
  | mk fst rec2 =>
    cases fst with
    | none =>
      rw [hscan] at hne
      exact absurd rfl hne
    | some i =>
      refine ⟨i, ⟨rec2, st.buffer, st.tracker⟩, ?_, rfl, rfl⟩
      rw [processRound, hscan]

/-- Witness for C4: two source workers returning the same sample id 1. -/
theorem duplicate_rejected_before_insert_witness :
    (¬ ((((roundSamples [some [⟨1, [0]⟩], some [⟨1, [0]⟩]]).map
        (fun s => s.sid)).Nodup) ∧
      ∀ s ∈ roundSamples [some [⟨1, [0]⟩], some [⟨1, [0]⟩]],
        s.sid ∉ (⟨[], ⟨0, 128, 0⟩, []⟩ : LoadState).received)) ∧
    ∃ i st2, processRound (fun n => n) (fun l => l)
        [some [⟨1, [0]⟩], some [⟨1, [0]⟩]] ⟨[], ⟨0, 128, 0⟩, []⟩ = .dup i st2 ∧
      st2.buffer = (⟨[], ⟨0, 128, 0⟩, []⟩ : LoadState).buffer ∧
      st2.tracker = (⟨[], ⟨0, 128, 0⟩, []⟩ : LoadState).tracker :=
  ⟨by decide, duplicate_rejected_before_insert (fun n => n) (fun l => l)
    [some [⟨1, [0]⟩], some [⟨1, [0]⟩]] ⟨[], ⟨0, 128, 0⟩, []⟩ (by decide)⟩

/-! ### The data-loading loop exit (C5) -/

/-- C5 counterexample: in the end-to-end scenario (2 source workers, 3
disjoint samples each, `nSeqs = 4`) the loader performs exactly 1 polling
round - not 2, as claimed: the single round already fills the buffer to
6 ≥ 4 and the loop exits. -/
theorem load_data_rounds_counterexample :
    loadRounds (load_data_loop (fun n => n) (fun l => l) (maxNSeqs [scenarioRpc])
      scenarioSupply scenarioInit) = some 1 ∧
    ¬ (loadRounds (load_data_loop (fun n => n) (fun l => l) (maxNSeqs [scenarioRpc])
      scenarioSupply scenarioInit) = some 2) := by
  constructor <;> decide

/-- C5 (amended): the loop exits as soon as the buffer size reaches the
maximum `n_seqs` requirement (a state already holding enough samples
performs zero rounds), and in the end-to-end scenario the loader performs
exactly 1 polling round issuing 2 fetch requests (one per source worker),
the buffer size ends at 6, and no duplicate error is raised. -/
theorem load_data_scenario_spec :
    (∀ (routeData : Nat → Nat) (shuffle : List Sample → List Sample)
      (maxSeqs : Nat) (supply : List (List (Option (List Sample))))
      (st : LoadState),
      maxSeqs ≤ st.buffer.size →
      load_data_loop routeData shuffle maxSeqs supply st = .done st 0 0) ∧
    loadRounds (load_data_loop (fun n => n) (fun l => l) (maxNSeqs [scenarioRpc])
      scenarioSupply scenarioInit) = some 1 ∧
    loadFetches (load_data_loop (fun n => n) (fun l => l) (maxNSeqs [scenarioRpc])
      scenarioSupply scenarioInit) = some 2 ∧
    loadFinalSize (load_data_loop (fun n => n) (fun l => l) (maxNSeqs [scenarioRpc])
      scenarioSupply scenarioInit) = some 6 ∧
    isDupError (load_data_loop (fun n => n) (fun l => l) (maxNSeqs [scenarioRpc])
      scenarioSupply scenarioInit) = false := by
  refine ⟨?_, by decide, by decide, by decide, by decide⟩
  intro routeData shuffle maxSeqs supply st h
  cases supply with
  | nil => rw [load_data_loop, if_pos h]
  | cons r rest => rw [load_data_loop, if_pos h]

/-- Witness for C5: the zero-round exit applied to a buffer already
holding 6 samples with requirement 4. -/
theorem load_data_scenario_spec_witness :
    (4 : Nat) ≤ (⟨[], ⟨6, 128, 6⟩, []⟩ : LoadState).buffer.size ∧
    load_data_loop (fun n => n) (fun l => l) 4 scenarioSupply
      ⟨[], ⟨6, 128, 6⟩, []⟩ = .done ⟨[], ⟨6, 128, 6⟩, []⟩ 0 0 :=
  ⟨by decide, load_data_scenario_spec.1 (fun n => n) (fun l => l) 4
    scenarioSupply ⟨[], ⟨6, 128, 6⟩, []⟩ (by decide)⟩

end AReaL
